import Mathlib

/-!
Verification of the batch PDF-compression orchestrator
(`src/compress_pdf/app.py`) against its specification.

The embedding is shallow:
* a filesystem is a map from paths to optional byte contents
  (`FS := Path → Option Content`); directories are implicit (the source's
  `mkdir(parents=True, exist_ok=True)` calls have no observable effect in
  this model beyond allowing the write);
* the external Ghostscript invocation (`compress_pdf`, which the source
  delegates to `subprocess.run`) is an oracle `Path → GsResult` giving, per
  input file, the exit code, captured stdout/stderr text, and the bytes the
  tool leaves at the temporary output path (`none` = no file produced);
* the worker thread `App._worker` is a fold over the enumerated file list,
  with the shared `stop_flag` modelled as a predicate on the 1-based loop
  index (what `is_set()` returns at the check in front of file `i`);
* the GUI log queue is a list of structured events (the float formatting of
  the log strings is not modelled; each event carries the exact payloads
  the source interpolates).
-/

namespace CompressPdf

/-- A filesystem path, as its list of components (the POSIX rendering is
`String.intercalate "/"`). -/
abbrev Path := List String

/-- File contents: the list of bytes. A file's size is its length. -/
abbrev Content := List Nat

/-- A filesystem: each path maps to the contents of the file there, or to
`none` when no file exists at that path. -/
abbrev FS := Path → Option Content

/-- `Path.exists()` of the source. -/
def fsExists (fs : FS) (p : Path) : Bool := (fs p).isSome

/-- `Path.stat().st_size` of the source (0 when the file is missing; the
source only reads sizes of files it has checked to exist). -/
def fsSize (fs : FS) (p : Path) : Nat := ((fs p).getD []).length

/-- Write `c` at `p` (the effect of the tool writing its output file, of
`shutil.copy2`'s target, or of a rename's target). -/
def fsSet (fs : FS) (p : Path) (c : Option Content) : FS :=
  fun q => if q = p then c else fs q

/-- `Path.unlink()` of the source. -/
def fsUnlink (fs : FS) (p : Path) : FS := fsSet fs p none

/-- `Path.name`: the final component. -/
def pathName (p : Path) : String := p.getLastD ""

/-- `Path.parent`: the path without its final component. -/
def parentDir (p : Path) : Path := p.dropLast

/-- `str(path)`, POSIX-rendered. -/
def pathStr (p : Path) : String := String.intercalate "/" p

/-- Index of the last '.' in a list of characters, if any (CPython's
`name.rfind('.')` restricted to a found dot). -/
def rfindDot : List Char → Option Nat
  | [] => none
  | c :: cs =>
    match rfindDot cs with
    | some i => some (i + 1)
    | none => if c = '.' then some 0 else none

/-- The split point pathlib uses for a name's suffix: the last dot's index
`i` when `0 < i < len(name) - 1`, else nothing (so `".pdf"`, `"a."` and
dotless names have no suffix). -/
def sfxIdx (cs : List Char) : Option Nat :=
  (rfindDot cs).bind (fun i => if 0 < i ∧ i + 1 < cs.length then some i else none)

/-- `PurePath.suffix` of a final component. -/
def suffixStr (name : String) : String :=
  match sfxIdx name.data with
  | some i => String.mk (name.data.drop i)
  | none => ""

/-- `PurePath.stem` of a final component. -/
def stemStr (name : String) : String :=
  match sfxIdx name.data with
  | some i => String.mk (name.data.take i)
  | none => name

/-- `Path.with_suffix`: the parent joined with `stem + suffix`. The source
uses it as `out_pdf.with_suffix(".tmp.pdf")` to derive the temporary output
path. -/
def with_suffix (p : Path) (suf : String) : Path :=
  p.dropLast ++ [stemStr (pathName p) ++ suf]

/-- `str.lower()`. -/
def lowerStr (s : String) : String := String.map Char.toLower s

/-- `str.endswith(suf)`. -/
def endswith (s suf : String) : Bool := suf.toList.isSuffixOf s.toList

/-- `text[:n]` — the truncation `err.strip()[:500]` applies to the recorded
stderr excerpt. -/
def truncateStr (n : Nat) (s : String) : String := String.mk (s.toList.take n)

/-- `PDF_PRESETS`: the five display labels and their Ghostscript tokens
(app.py lines 28-34). -/
def PDF_PRESETS : List (String × String) :=
  [("Very light (/screen)", "/screen"),
   ("Light (/ebook)", "/ebook"),
   ("Balanced (/printer)", "/printer"),
   ("High quality (/prepress)", "/prepress"),
   ("Default (/default)", "/default")]

/-- `self.preset_map.get(self.preset_choice.get(), "/ebook")` (app.py line
277): the token of the chosen label, defaulting to "/ebook" when the label
is unknown. `PDF_PRESETS` has pairwise distinct labels, so the first match
equals the `dict(PDF_PRESETS)` lookup. -/
def preset_get (label : String) : String :=
  match PDF_PRESETS.find? (fun pr => pr.1 == label) with
  | some pr => pr.2
  | none => "/ebook"

/-- The argument vector `compress_pdf` builds (app.py lines 68-78). -/
def compress_cmd (gs_exe : String) (in_pdf out_pdf : Path) (pdf_setting : String) :
    List String :=
  [gs_exe,
   "-sDEVICE=pdfwrite",
   "-dCompatibilityLevel=1.4",
   "-dPDFSETTINGS=" ++ pdf_setting,
   "-dNOPAUSE",
   "-dQUIET",
   "-dBATCH",
   "-sOutputFile=" ++ pathStr out_pdf,
   pathStr in_pdf]

/-- `safe_output_path` (app.py lines 57-62): `output_root /
pdf_path.relative_to(input_root)`. The enumerator only hands the worker
paths under `input_root`, for which `relative_to` drops the
`input_root.length`-component prefix; intermediate directories are implicit
in the `FS` model. -/
def safe_output_path (output_root input_root pdf_path : Path) : Path :=
  output_root ++ pdf_path.drop input_root.length

/-- The output-root resolution of `App._validate` (app.py lines 243-252):
when the canonicalized output folder equals the canonicalized comparison
target (the input folder, or the single input file's parent), the effective
output root becomes that target's `_compressed` child. `resolve` stands for
`Path.resolve()`, whose canonicalization depends on the real filesystem. -/
def validate_out_dir (resolve : Path → Path) (in_path : Path) (is_file : Bool)
    (out_dir : Path) : Path :=
  let comp_target := if is_file then parentDir in_path else in_path
  if resolve comp_target = resolve out_dir then comp_target ++ ["_compressed"]
  else out_dir

/-- What one `compress_pdf` invocation returns and leaves behind: the
subprocess's exit code, captured stdout and stderr, and the bytes found at
the requested output path afterwards (`none` when the tool produced no
file). -/
structure GsResult where
  rc : Int
  out_text : String
  err_text : String
  output : Option Content

/-- A run's configuration: the arguments `App.start` passes to `_worker`
(gs executable, input root, output root, preset token), the overwrite
policy, the external tool's behaviour, and the stop flag as observed at the
check in front of the `i`-th file. -/
structure RunCfg where
  gs : String
  in_root : Path
  out_dir : Path
  preset : String
  overwrite : Bool
  oracle : Path → GsResult
  stop : Nat → Bool

/-- One message placed on `self.log_q`, with the payloads the source
interpolates into the corresponding string (float rendering aside). -/
inductive Event where
  | log_skip (name : String)
  | log_copy (rel : Path) (out_tmp_size in_size : Nat)
  | log_ok (rel : Path) (in_size out_size : Nat)
  | log_fail_gs (name : String) (rc : Int)
  | log_stderr (excerpt : String)
  | progress (i : Nat)
  | done (ok skipped failed total : Nat) (saved : Int) (total_in : Nat)
deriving DecidableEq

/-- The worker's mutable context: the filesystem, the counters of
`_worker`, the queued events, and every argument vector handed to
`subprocess.run`. -/
structure WorkerState where
  fs : FS
  ok : Nat
  skipped : Nat
  failed : Nat
  total_in_bytes : Nat
  total_out_bytes : Nat
  events : List Event
  invocations : List (List String)

/-- The body of `_worker`'s loop for one enumerated file `pdf` at 1-based
index `i` (app.py lines 303-375): skip check, temporary-path cleanup,
invocation, then the success gate splitting into copy-fallback, rename
promotion, or failure. In this model the filesystem operations themselves
succeed, so the `except` arm of the source's promotion `try` (a
rename/copy/unlink raising) is unreachable; failures come only from the
invocation gate. -/
def process_one (cfg : RunCfg) (i : Nat) (pdf : Path) (s : WorkerState) :
    WorkerState :=
  let out_pdf := safe_output_path cfg.out_dir cfg.in_root pdf
  if fsExists s.fs out_pdf && !cfg.overwrite then
    { s with
      skipped := s.skipped + 1,
      events := s.events ++ [Event.progress i, Event.log_skip (pathName pdf)] }
  else
    let tmp_out := with_suffix out_pdf ".tmp.pdf"
    let fs1 := if fsExists s.fs tmp_out then fsUnlink s.fs tmp_out else s.fs
    let res := cfg.oracle pdf
    let fs2 := fsSet fs1 tmp_out res.output
    let invs := s.invocations ++ [compress_cmd cfg.gs pdf tmp_out cfg.preset]
    if res.rc = 0 ∧ fsExists fs2 tmp_out = true ∧ 0 < fsSize fs2 tmp_out then
      let in_size := fsSize fs2 pdf
      let out_tmp_size := fsSize fs2 tmp_out
      if in_size ≤ out_tmp_size ∧ 0 < in_size then
        let fs3 := if fsExists fs2 out_pdf then fsUnlink fs2 out_pdf else fs2
        let fs4 := fsSet fs3 out_pdf (fs3 pdf)
        let fs5 := fsUnlink fs4 tmp_out
        { fs := fs5, ok := s.ok + 1, skipped := s.skipped, failed := s.failed,
          total_in_bytes := s.total_in_bytes + in_size,
          total_out_bytes := s.total_out_bytes + in_size,
          events := s.events ++
            [Event.log_copy (pdf.drop cfg.in_root.length) out_tmp_size in_size,
             Event.progress i],
          invocations := invs }
      else
        let fs3 := if fsExists fs2 out_pdf then fsUnlink fs2 out_pdf else fs2
        let fs4 := fsUnlink (fsSet fs3 out_pdf (fs3 tmp_out)) tmp_out
        let out_size := fsSize fs4 out_pdf
        { fs := fs4, ok := s.ok + 1, skipped := s.skipped, failed := s.failed,
          total_in_bytes := s.total_in_bytes + in_size,
          total_out_bytes := s.total_out_bytes + out_size,
          events := s.events ++
            [Event.log_ok (pdf.drop cfg.in_root.length) in_size out_size,
             Event.progress i],
          invocations := invs }
    else
      let fs3 := if fsExists fs2 tmp_out then fsUnlink fs2 tmp_out else fs2
      { fs := fs3, ok := s.ok, skipped := s.skipped, failed := s.failed + 1,
        total_in_bytes := s.total_in_bytes,
        total_out_bytes := s.total_out_bytes,
        events := s.events ++
          ([Event.log_fail_gs (pathName pdf) res.rc] ++
           (if res.err_text ≠ "" then
              [Event.log_stderr (truncateStr 500 res.err_text.trim)]
            else []) ++
           [Event.progress i]),
        invocations := invs }

/-- `_worker`'s `for i, pdf in enumerate(pdfs, start=1)` loop with its
`if self.stop_flag.is_set(): break` at the top of each iteration. -/
def worker_loop (cfg : RunCfg) : Nat → List Path → WorkerState → WorkerState
  | _, [], s => s
  | i, pdf :: rest, s =>
    if cfg.stop i then s
    else worker_loop cfg (i + 1) rest (process_one cfg i pdf s)

/-- `max(total_in_bytes - total_out_bytes, 0)` (app.py line 377). -/
def total_saved (tin tout : Nat) : Int := max ((tin : Int) - (tout : Int)) 0

/-- The worker's state at entry: counters zero, nothing queued. -/
def init_state (fs0 : FS) : WorkerState :=
  { fs := fs0, ok := 0, skipped := 0, failed := 0,
    total_in_bytes := 0, total_out_bytes := 0, events := [], invocations := [] }

/-- `App._worker` (app.py lines 296-378): run the loop, then queue the
`("done", (ok, skipped, failed, len(pdfs), total_saved, total_in_bytes))`
summary. -/
def worker (cfg : RunCfg) (pdfs : List Path) (fs0 : FS) : WorkerState :=
  let s := worker_loop cfg 1 pdfs (init_state fs0)
  { s with
    events := s.events ++
      [Event.done s.ok s.skipped s.failed pdfs.length
        (total_saved s.total_in_bytes s.total_out_bytes) s.total_in_bytes] }

/-- The saved-space report of `_poll_log_queue` (app.py lines 400-405): the
ratio `saved / total_in` when `total_in > 0`, else "n/a" (`none`). -/
def saved_ratio (saved : Int) (total_in : Nat) : Option ℚ :=
  if 0 < total_in then some ((saved : ℚ) / (total_in : ℚ)) else none

/-- A directory entry as the enumerator sees it: a plain file or a
subdirectory with its own entries (one filesystem snapshot). -/
inductive Entry where
  | file (name : String)
  | dir (name : String) (entries : List Entry)

/-- The plain-file names among a directory's entries, in order: what
`os.walk` reports as `files` for that directory (and what `iterdir` plus
`is_file()` retains). -/
def filesOf : List Entry → List String
  | [] => []
  | Entry.file n :: es => n :: filesOf es
  | Entry.dir _ _ :: es => filesOf es

/-- The `(root, files)` pairs `os.walk` yields for the subdirectories among
`es` (each subdirectory top-down, in order), the walk of a directory at `p`
being `(p, its files)` followed by `walkSubs` of its entries. -/
def walkSubs (p : Path) (es : List Entry) : List (Path × List String) :=
  match es with
  | [] => []
  | Entry.file _ :: rest => walkSubs p rest
  | Entry.dir n sub :: rest =>
    ((p ++ [n], filesOf sub) :: walkSubs (p ++ [n]) sub) ++ walkSubs p rest

/-- `os.walk(input_dir)` restricted to what `list_pdfs` reads: the
top-down sequence of `(root, filenames)` pairs. -/
def walkDir (p : Path) (es : List Entry) : List (Path × List String) :=
  (p, filesOf es) :: walkSubs p es

/-- `list_pdfs` (app.py lines 45-54) on a directory rooted at `p` with
entries `es`: recursive mode filters every walked file by
`fn.lower().endswith(".pdf")`; flat mode filters the direct children by
`fn.is_file() and fn.suffix.lower() == ".pdf"`. -/
def list_pdfs (p : Path) (es : List Entry) (recursive : Bool) : List Path :=
  if recursive then
    (walkDir p es).flatMap (fun rfs =>
      (rfs.2.filter (fun fn => endswith (lowerStr fn) ".pdf")).map
        (fun fn => rfs.1 ++ [fn]))
  else
    es.filterMap (fun e =>
      match e with
      | Entry.file fn =>
        if lowerStr (suffixStr fn) = ".pdf" then some (p ++ [fn]) else none
      | Entry.dir _ _ => none)

/-- Every file of the tree, in the walk's directory-by-directory order,
with no extension filter (the reference stream `list_pdfs`'s recursive mode
filters). -/
def all_files (p : Path) (es : List Entry) : List Path :=
  (walkDir p es).flatMap (fun rfs => rfs.2.map (fun fn => rfs.1 ++ [fn]))

/-- "A file anywhere beneath the root": the relative path `rel` reaches a
plain file by descending through subdirectory entries. -/
inductive FileUnder : List Entry → Path → Prop where
  | here {es : List Entry} {fn : String} :
      Entry.file fn ∈ es → FileUnder es [fn]
  | deeper {es : List Entry} {n : String} {sub : List Entry} {rest : Path} :
      Entry.dir n sub ∈ es → FileUnder sub rest → FileUnder es (n :: rest)

/-- How many files the loop reaches before the stop flag ends it: files are
counted from index `i` until the first index whose check observes the flag
set. -/
def processed_count (cfg : RunCfg) : Nat → List Path → Nat
  | _, [] => 0
  | i, _ :: rest =>
    if cfg.stop i then 0 else processed_count cfg (i + 1) rest + 1

/-! Concrete run fixtures used by the closed witness theorems below: one
5-byte input file `in/a.pdf`, and configurations whose oracle compresses to
2 bytes, "compresses" to 6 bytes, fails with exit code 1, stops after the
first file, or carries an unknown preset label. -/

def wFS : FS := fun q => if q = ["in", "a.pdf"] then some [9, 9, 9, 9, 9] else none

def wFSOut : FS := fun q =>
  if q = ["in", "a.pdf"] then some [9, 9, 9, 9, 9]
  else if q = ["out", "a.pdf"] then some [1] else none

def wCfgOk : RunCfg :=
  { gs := "gs", in_root := ["in"], out_dir := ["out"], preset := "/ebook",
    overwrite := true,
    oracle := fun _ => { rc := 0, out_text := "", err_text := "", output := some [7, 7] },
    stop := fun _ => false }

def wCfgCopy : RunCfg :=
  { wCfgOk with oracle := fun _ =>
      { rc := 0, out_text := "", err_text := "", output := some [7, 7, 7, 7, 7, 7] } }

def wCfgFail : RunCfg :=
  { wCfgOk with oracle := fun _ =>
      { rc := 1, out_text := "", err_text := "boom", output := some [7, 7] } }

def wCfgNoOv : RunCfg := { wCfgOk with overwrite := false }

def wCfgStop : RunCfg := { wCfgOk with stop := fun j => decide (1 < j) }

def wCfgUnknown : RunCfg := { wCfgOk with preset := preset_get "Maximum (/max)" }

theorem fsSet_self (fs : FS) (p : Path) (c : Option Content) : fsSet fs p c p = c := by
  simp [fsSet]

theorem fsSet_other (fs : FS) (c : Option Content) {p q : Path} (h : q ≠ p) :
    fsSet fs p c q = fs q := by
  simp [fsSet, h]

theorem fsUnlink_self (fs : FS) (p : Path) : fsUnlink fs p p = none := by
  simp [fsUnlink, fsSet]

theorem fsUnlink_other (fs : FS) {p q : Path} (h : q ≠ p) : fsUnlink fs p q = fs q := by
  simp [fsUnlink, fsSet, h]

theorem rfindDot_eq_none {cs : List Char} (h : rfindDot cs = none) : '.' ∉ cs := by
  induction cs with
  | nil => simp
  | cons c cs ih =>
    simp only [rfindDot] at h
    cases hr : rfindDot cs with
    | some j => rw [hr] at h; simp at h
    | none =>
      rw [hr] at h
      by_cases hc : c = '.'
      · rw [if_pos hc] at h; simp at h
      · simp only [List.mem_cons, not_or]
        exact ⟨fun hm => hc hm.symm, ih hr⟩

theorem rfindDot_drop {cs : List Char} {i : Nat} (h : rfindDot cs = some i) :
    '.' ∉ cs.drop (i + 1) := by
  induction cs generalizing i with
  | nil => simp [rfindDot] at h
  | cons c cs ih =>
    simp only [rfindDot] at h
    cases hr : rfindDot cs with
    | some j =>
      rw [hr] at h
      obtain rfl : j + 1 = i := by simpa using h
      simpa using ih hr
    | none =>
      rw [hr] at h
      by_cases hc : c = '.'
      · rw [if_pos hc] at h
        obtain rfl : (0 : Nat) = i := by simpa using h
        simpa using rfindDot_eq_none hr
      · rw [if_neg hc] at h; simp at h

theorem sfxIdx_split {cs : List Char} {i : Nat} (h : sfxIdx cs = some i) :
    rfindDot cs = some i ∧ 0 < i ∧ i + 1 < cs.length := by
  unfold sfxIdx at h
  cases hr : rfindDot cs with
  | some j =>
    rw [hr, Option.some_bind] at h
    by_cases hc : 0 < j ∧ j + 1 < cs.length
    · rw [if_pos hc] at h
      cases h
      exact ⟨rfl, hc⟩
    · rw [if_neg hc] at h; simp at h
  | none => rw [hr] at h; simp at h

theorem take_append_tmp_ne {cs : List Char} {i : Nat} (hr : rfindDot cs = some i)
    (hlt : i + 1 < cs.length) : cs.take i ++ ".tmp.pdf".data ≠ cs := by
  intro h
  have h1 : (cs.take i ++ ".tmp.pdf".data).drop (i + 1) = cs.drop (i + 1) := by rw [h]
  rw [List.drop_append_eq_append_drop] at h1
  have hlen : (cs.take i).length = i := by rw [List.length_take]; omega
  rw [hlen] at h1
  have h2 : (cs.take i).drop (i + 1) = [] := List.drop_eq_nil_of_le (by omega)
  have h3 : i + 1 - i = 1 := by omega
  rw [h2, h3] at h1
  simp only [List.nil_append] at h1
  have hnodot := rfindDot_drop hr
  rw [← h1] at hnodot
  exact hnodot (by decide)

theorem stem_append_tmp_ne (name : String) : stemStr name ++ ".tmp.pdf" ≠ name := by
  intro h
  have hdata : (stemStr name).data ++ ".tmp.pdf".data = name.data := by
    simpa [String.data_append] using congrArg String.data h
  cases hs : sfxIdx name.data with
  | none =>
    have hst : stemStr name = name := by simp [stemStr, hs]
    rw [hst] at hdata
    have hl := congrArg List.length hdata
    simp [List.length_append] at hl
  | some i =>
    have hst : (stemStr name).data = name.data.take i := by simp [stemStr, hs]
    obtain ⟨hr, hi, hlt⟩ := sfxIdx_split hs
    rw [hst] at hdata
    exact take_append_tmp_ne hr hlt hdata

theorem with_suffix_tmp_ne (p : Path) : with_suffix p ".tmp.pdf" ≠ p := by
  intro h
  unfold with_suffix at h
  rcases List.eq_nil_or_concat p with hnil | ⟨q, a, rfl⟩
  · subst hnil; simp at h
  · simp only [List.concat_eq_append] at h
    rw [List.dropLast_concat] at h
    have ha : pathName (q ++ [a]) = a := by
      simp [pathName, List.getLastD_concat]
    rw [ha] at h
    have hc := List.append_cancel_left h
    simp only [List.cons.injEq, and_true] at hc
    exact stem_append_tmp_ne a hc
/-- C1: Copy-fallback. For a job whose invocation returns exit code 0, whose
temporary output exists with nonzero size at least the input's size (input
size positive), and which is not skipped: the worker replaces any file at the
mapped output path with a byte-identical copy of the original input, deletes
the temporary file, leaves the input untouched, and counts the job as
succeeded. -/
theorem copy_fallback
    (cfg : RunCfg) (i : Nat) (pdf out_pdf tmp_out : Path) (s : WorkerState)
    (c d : Content)
    (hout : out_pdf = safe_output_path cfg.out_dir cfg.in_root pdf)
    (htmp : tmp_out = with_suffix out_pdf ".tmp.pdf")
    (hskip : ¬(fsExists s.fs out_pdf = true ∧ cfg.overwrite = false))
    (hrc : (cfg.oracle pdf).rc = 0)
    (horacle : (cfg.oracle pdf).output = some c)
    (hc : 0 < c.length)
    (hpdf : s.fs pdf = some d)
    (hd : 0 < d.length)
    (hge : d.length ≤ c.length)
    (hne1 : pdf ≠ out_pdf)
    (hne2 : pdf ≠ tmp_out) :
    (process_one cfg i pdf s).fs out_pdf = some d ∧
    (process_one cfg i pdf s).fs tmp_out = none ∧
    (process_one cfg i pdf s).fs pdf = s.fs pdf ∧
    (process_one cfg i pdf s).ok = s.ok + 1 ∧
    (process_one cfg i pdf s).skipped = s.skipped ∧
    (process_one cfg i pdf s).failed = s.failed := by
  have hot : out_pdf ≠ tmp_out := htmp ▸ (with_suffix_tmp_ne out_pdf).symm
  subst hout
  subst htmp
  have hskip' : ¬((s.fs (safe_output_path cfg.out_dir cfg.in_root pdf)).isSome = true ∧
      cfg.overwrite = false) := by simpa [fsExists] using hskip
  refine ⟨?_, ?_, ?_, ?_, ?_, ?_⟩ <;>
    simp [process_one, hskip', hrc, horacle, hpdf, hc, hd, hge,
      fsExists, fsSize, fsSet_self, fsSet_other, fsUnlink_self, fsUnlink_other,
      ite_apply, ite_self, hne1, hne2, hot]
/-- C2: Smaller-result promotion. For a non-skipped job whose invocation
returns exit code 0 and whose temporary output exists, is nonempty and is
strictly smaller than the input: the temporary file's bytes are renamed into
place at the mapped output path (replacing any existing file there), the
temporary path is left empty, the original input file is unchanged, and the
job counts as succeeded. -/
theorem smaller_promotion
    (cfg : RunCfg) (i : Nat) (pdf out_pdf tmp_out : Path) (s : WorkerState)
    (c d : Content)
    (hout : out_pdf = safe_output_path cfg.out_dir cfg.in_root pdf)
    (htmp : tmp_out = with_suffix out_pdf ".tmp.pdf")
    (hskip : ¬(fsExists s.fs out_pdf = true ∧ cfg.overwrite = false))
    (hrc : (cfg.oracle pdf).rc = 0)
    (horacle : (cfg.oracle pdf).output = some c)
    (hc : 0 < c.length)
    (hpdf : s.fs pdf = some d)
    (hlt : c.length < d.length)
    (hne1 : pdf ≠ out_pdf)
    (hne2 : pdf ≠ tmp_out) :
    (process_one cfg i pdf s).fs out_pdf = some c ∧
    (process_one cfg i pdf s).fs tmp_out = none ∧
    (process_one cfg i pdf s).fs pdf = s.fs pdf ∧
    (process_one cfg i pdf s).ok = s.ok + 1 ∧
    (process_one cfg i pdf s).skipped = s.skipped ∧
    (process_one cfg i pdf s).failed = s.failed := by
  have hot : out_pdf ≠ tmp_out := htmp ▸ (with_suffix_tmp_ne out_pdf).symm
  have hot' : tmp_out ≠ out_pdf := htmp ▸ with_suffix_tmp_ne out_pdf
  subst hout
  subst htmp
  have hskip' : ¬((s.fs (safe_output_path cfg.out_dir cfg.in_root pdf)).isSome = true ∧
      cfg.overwrite = false) := by simpa [fsExists] using hskip
  have hnle : ¬(d.length ≤ c.length) := by omega
  refine ⟨?_, ?_, ?_, ?_, ?_, ?_⟩ <;>
    simp [process_one, hskip', hrc, horacle, hpdf, hc, hnle,
      fsExists, fsSize, fsSet_self, fsSet_other, fsUnlink_self, fsUnlink_other,
      ite_apply, ite_self, hne1, hne2, hot, hot']

/-- C3: Skip rule. When the mapped output path already exists and the
overwrite policy is disabled, the job is counted as skipped, the external
tool is not invoked (the invocation list is unchanged), the filesystem is
untouched (no temporary file is created), and only a progress event and a
skip log line are queued. -/
theorem skip_rule
    (cfg : RunCfg) (i : Nat) (pdf : Path) (s : WorkerState)
    (hex : fsExists s.fs (safe_output_path cfg.out_dir cfg.in_root pdf) = true)
    (hov : cfg.overwrite = false) :
    (process_one cfg i pdf s).skipped = s.skipped + 1 ∧
    (process_one cfg i pdf s).ok = s.ok ∧
    (process_one cfg i pdf s).failed = s.failed ∧
    (process_one cfg i pdf s).invocations = s.invocations ∧
    (process_one cfg i pdf s).fs = s.fs ∧
    (process_one cfg i pdf s).events =
      s.events ++ [Event.progress i, Event.log_skip (pathName pdf)] := by
  have hex' : (s.fs (safe_output_path cfg.out_dir cfg.in_root pdf)).isSome = true := by
    simpa [fsExists] using hex
  refine ⟨?_, ?_, ?_, ?_, ?_, ?_⟩ <;> simp [process_one, fsExists, hex', hov]

/-- C7: Failure handling. When the invocation's exit code is nonzero, or the
temporary output is missing or empty, the job counts as failed, the
temporary path is left with no file, the byte totals are unchanged, a
failure log line (with the stripped stderr excerpt truncated to 500
characters, when nonempty) and a progress event are queued, and the loop
continues with the next enumerated file. -/
theorem failure_handling
    (cfg : RunCfg) (i : Nat) (pdf out_pdf tmp_out : Path) (s : WorkerState)
    (rest : List Path)
    (hout : out_pdf = safe_output_path cfg.out_dir cfg.in_root pdf)
    (htmp : tmp_out = with_suffix out_pdf ".tmp.pdf")
    (hskip : ¬(fsExists s.fs out_pdf = true ∧ cfg.overwrite = false))
    (hfail : ¬((cfg.oracle pdf).rc = 0 ∧ ((cfg.oracle pdf).output).isSome = true ∧
        0 < ((cfg.oracle pdf).output.getD []).length)) :
    (process_one cfg i pdf s).failed = s.failed + 1 ∧
    (process_one cfg i pdf s).ok = s.ok ∧
    (process_one cfg i pdf s).skipped = s.skipped ∧
    (process_one cfg i pdf s).fs tmp_out = none ∧
    (process_one cfg i pdf s).total_in_bytes = s.total_in_bytes ∧
    (process_one cfg i pdf s).total_out_bytes = s.total_out_bytes ∧
    (process_one cfg i pdf s).events =
      s.events ++
        ([Event.log_fail_gs (pathName pdf) (cfg.oracle pdf).rc] ++
         (if (cfg.oracle pdf).err_text ≠ "" then
            [Event.log_stderr (truncateStr 500 (cfg.oracle pdf).err_text.trim)]
          else []) ++
         [Event.progress i]) ∧
    (cfg.stop i = false →
      worker_loop cfg i (pdf :: rest) s = worker_loop cfg (i + 1) rest (process_one cfg i pdf s)) := by
  subst hout
  subst htmp
  have hskip' : ¬((s.fs (safe_output_path cfg.out_dir cfg.in_root pdf)).isSome = true ∧
      cfg.overwrite = false) := by simpa [fsExists] using hskip
  cases ho : (cfg.oracle pdf).output with
  | none =>
    refine ⟨?_, ?_, ?_, ?_, ?_, ?_, ?_, ?_⟩ <;>
      first
      | (intro hstop; simp [worker_loop, hstop])
      | simp [process_one, hskip', ho, fsExists, fsSize, fsSet_self, fsSet_other,
          fsUnlink_self, fsUnlink_other, ite_apply, ite_self]
  | some v =>
    have hfail' : ¬((cfg.oracle pdf).rc = 0 ∧ 0 < v.length) := by
      intro hx
      exact hfail ⟨hx.1, by simp [ho], by simpa [ho] using hx.2⟩
    refine ⟨?_, ?_, ?_, ?_, ?_, ?_, ?_, ?_⟩ <;>
      first
      | (intro hstop; simp [worker_loop, hstop])
      | simp [process_one, hskip', ho, hfail', fsExists, fsSize, fsSet_self, fsSet_other,
          fsUnlink_self, fsUnlink_other, ite_apply, ite_self]
theorem process_one_outcome (cfg : RunCfg) (i : Nat) (pdf : Path) (s : WorkerState) :
    (process_one cfg i pdf s).ok + (process_one cfg i pdf s).skipped +
      (process_one cfg i pdf s).failed = s.ok + s.skipped + s.failed + 1 := by
  simp only [process_one]
  split_ifs <;> simp <;> omega

theorem processed_count_le (cfg : RunCfg) :
    ∀ (pdfs : List Path) (i : Nat), processed_count cfg i pdfs ≤ pdfs.length := by
  intro pdfs
  induction pdfs with
  | nil => intro i; simp [processed_count]
  | cons pdf rest ih =>
    intro i
    by_cases hstop : cfg.stop i = true
    · simp [processed_count, hstop]
    · have hpc : processed_count cfg i (pdf :: rest) = processed_count cfg (i + 1) rest + 1 := by
        simp [processed_count, hstop]
      rw [hpc]
      simp only [List.length_cons]
      have := ih (i + 1)
      omega

theorem worker_loop_outcome (cfg : RunCfg) :
    ∀ (pdfs : List Path) (i : Nat) (s : WorkerState),
      (worker_loop cfg i pdfs s).ok + (worker_loop cfg i pdfs s).skipped +
        (worker_loop cfg i pdfs s).failed =
      s.ok + s.skipped + s.failed + processed_count cfg i pdfs := by
  intro pdfs
  induction pdfs with
  | nil => intro i s; simp [worker_loop, processed_count]
  | cons pdf rest ih =>
    intro i s
    by_cases hstop : cfg.stop i = true
    · simp [worker_loop, processed_count, hstop]
    · have hred : worker_loop cfg i (pdf :: rest) s =
          worker_loop cfg (i + 1) rest (process_one cfg i pdf s) := by
        simp [worker_loop, hstop]
      have hpc : processed_count cfg i (pdf :: rest) = processed_count cfg (i + 1) rest + 1 := by
        simp [processed_count, hstop]
      rw [hred, hpc, ih (i + 1) (process_one cfg i pdf s), process_one_outcome]
      omega

theorem process_one_stop_irrel (cfg : RunCfg) (f : Nat → Bool) (i : Nat) (pdf : Path)
    (s : WorkerState) :
    process_one { cfg with stop := f } i pdf s = process_one cfg i pdf s := rfl

theorem worker_loop_stop_take (cfg : RunCfg) (k : Nat)
    (hstop : ∀ j, cfg.stop j = decide (k < j)) :
    ∀ (pdfs : List Path) (i : Nat) (s : WorkerState),
      worker_loop cfg i pdfs s =
        worker_loop { cfg with stop := fun _ => false } i (pdfs.take (k + 1 - i)) s := by
  intro pdfs
  induction pdfs with
  | nil => intro i s; simp [worker_loop]
  | cons pdf rest ih =>
    intro i s
    by_cases hki : k < i
    · have h0 : k + 1 - i = 0 := by omega
      have hsi : cfg.stop i = true := by rw [hstop i]; simpa using hki
      simp [worker_loop, hsi, h0]
    · have hpos : k + 1 - i = (k - i) + 1 := by omega
      have hsi : cfg.stop i = false := by rw [hstop i]; simpa using hki
      rw [hpos]
      simp only [worker_loop, List.take_succ_cons, hsi, Bool.false_eq_true, if_false,
        process_one_stop_irrel]
      have harg : k + 1 - (i + 1) = k - i := by omega
      rw [← harg]
      exact ih (i + 1) (process_one cfg i pdf s)

theorem processed_count_nostop (cfg : RunCfg) (hns : ∀ j, cfg.stop j = false) :
    ∀ (pdfs : List Path) (i : Nat), processed_count cfg i pdfs = pdfs.length := by
  intro pdfs
  induction pdfs with
  | nil => intro i; simp [processed_count]
  | cons pdf rest ih =>
    intro i
    simp [processed_count, hns i, ih (i + 1)]

/-- C4: Outcome accounting. Each processed job increments exactly one of the
ok/skipped/failed counters, and at the end of a run the three counters plus
the number of files left unprocessed by a stop add up to the number of
enumerated files. -/
theorem outcome_accounting (cfg : RunCfg) (pdfs : List Path) (fs0 : FS) :
    (∀ (i : Nat) (pdf : Path) (s : WorkerState),
      (process_one cfg i pdf s).ok + (process_one cfg i pdf s).skipped +
        (process_one cfg i pdf s).failed = s.ok + s.skipped + s.failed + 1) ∧
    processed_count cfg 1 pdfs ≤ pdfs.length ∧
    (worker cfg pdfs fs0).ok + (worker cfg pdfs fs0).skipped + (worker cfg pdfs fs0).failed +
      (pdfs.length - processed_count cfg 1 pdfs) = pdfs.length := by
  refine ⟨process_one_outcome cfg, processed_count_le cfg pdfs 1, ?_⟩
  have hsum := worker_loop_outcome cfg pdfs 1 (init_state fs0)
  have hle := processed_count_le cfg pdfs 1
  simp only [show (init_state fs0).ok = 0 from rfl, show (init_state fs0).skipped = 0 from rfl,
    show (init_state fs0).failed = 0 from rfl] at hsum
  simp only [worker]
  omega

/-- C8: Stop semantics. The stop flag is read only at the check in front of
each file; if the flag is observed set exactly from the check before file
k+1 on (and k ≤ n), the run equals a no-stop run over the first k files
alone: file k completes, files k+1..n get no outcome (the counters sum to
k), and the byte totals equal those of the first k files. -/
theorem stop_semantics (cfg : RunCfg) (k : Nat) (pdfs : List Path) (fs0 : FS)
    (hstop : ∀ j, cfg.stop j = decide (k < j))
    (hk : k ≤ pdfs.length) :
    worker_loop cfg 1 pdfs (init_state fs0) =
      worker_loop { cfg with stop := fun _ => false } 1 (pdfs.take k) (init_state fs0) ∧
    (worker cfg pdfs fs0).ok + (worker cfg pdfs fs0).skipped + (worker cfg pdfs fs0).failed = k ∧
    (worker cfg pdfs fs0).total_in_bytes =
      (worker { cfg with stop := fun _ => false } (pdfs.take k) fs0).total_in_bytes ∧
    (worker cfg pdfs fs0).total_out_bytes =
      (worker { cfg with stop := fun _ => false } (pdfs.take k) fs0).total_out_bytes := by
  have hmain := worker_loop_stop_take cfg k hstop pdfs 1 (init_state fs0)
  have h1 : k + 1 - 1 = k := by omega
  rw [h1] at hmain
  refine ⟨hmain, ?_, ?_, ?_⟩
  · have hsum := worker_loop_outcome { cfg with stop := fun _ => false } (pdfs.take k) 1
      (init_state fs0)
    rw [processed_count_nostop _ (fun _ => rfl)] at hsum
    simp only [show (init_state fs0).ok = 0 from rfl, show (init_state fs0).skipped = 0 from rfl,
      show (init_state fs0).failed = 0 from rfl] at hsum
    have hlen : (pdfs.take k).length = k := by
      rw [List.length_take]; omega
    simp only [worker, hmain]
    omega
  · simp only [worker, hmain]
  · simp only [worker, hmain]
/-- C5: Output-root equality redirect. When the resolved output root equals
the resolved comparison target (the input folder, or the single input
file's parent), the effective output root becomes the target's
"_compressed" child, and every mapped job output (any file strictly below
the input root) then has a parent directory different from that target, so
no job writes directly into the input root. -/
theorem out_root_redirect (resolve : Path → Path) (in_path : Path) (is_file : Bool)
    (out_dir : Path)
    (heq : resolve (if is_file then parentDir in_path else in_path) = resolve out_dir) :
    validate_out_dir resolve in_path is_file out_dir =
      (if is_file then parentDir in_path else in_path) ++ ["_compressed"] ∧
    ∀ (in_root pdf : Path),
      in_root.length < pdf.length →
      parentDir (safe_output_path (validate_out_dir resolve in_path is_file out_dir)
        in_root pdf) ≠ (if is_file then parentDir in_path else in_path) := by
  have hval : validate_out_dir resolve in_path is_file out_dir =
      (if is_file then parentDir in_path else in_path) ++ ["_compressed"] := by
    simp [validate_out_dir, heq]
  refine ⟨hval, ?_⟩
  intro in_root pdf hlen
  rw [hval]
  intro hcontra
  have hlen2 := congrArg List.length hcontra
  simp [parentDir, safe_output_path] at hlen2
  omega

theorem fsSize_promote (fs2 : FS) (out tmp : Path) (c : Prop) [Decidable c]
    (h : out ≠ tmp) :
    fsSize (fsUnlink (fsSet (if c then fsUnlink fs2 out else fs2) out
      ((if c then fsUnlink fs2 out else fs2) tmp)) tmp) out = fsSize fs2 tmp := by
  have h1 : (if c then fsUnlink fs2 out else fs2) tmp = fs2 tmp := by
    split_ifs with hc
    · exact fsUnlink_other _ h.symm
    · rfl
  have h2 : fsUnlink (fsSet (if c then fsUnlink fs2 out else fs2) out (fs2 tmp)) tmp out
      = fs2 tmp := by
    rw [fsUnlink_other _ h, fsSet_self]
  rw [h1]
  simp [fsSize, h2]

/-- C6 (amended): Byte accounting. The input-byte total grows by the input's
size exactly for jobs that pass the success gate (exit code 0, temporary
output present and nonempty) — skipped and, contrary to the claim as
stated, also failed jobs leave both totals unchanged — and the output-byte
total grows by the final output's size (the input's size for copy-fallback,
the temporary's size for promotion). The summary saving is
max(total_in - total_out, 0), queued with the done event, and the reported
ratio is saved / total_in when total_in > 0, "n/a" otherwise. -/
theorem byte_accounting
    (cfg : RunCfg) (i : Nat) (pdf out_pdf tmp_out : Path) (s : WorkerState) (fs2 : FS)
    (hout : out_pdf = safe_output_path cfg.out_dir cfg.in_root pdf)
    (htmp : tmp_out = with_suffix out_pdf ".tmp.pdf")
    (hfs2 : fs2 = fsSet (if fsExists s.fs tmp_out then fsUnlink s.fs tmp_out else s.fs)
        tmp_out (cfg.oracle pdf).output) :
    ((fsExists s.fs out_pdf = true ∧ cfg.overwrite = false) →
      (process_one cfg i pdf s).total_in_bytes = s.total_in_bytes ∧
      (process_one cfg i pdf s).total_out_bytes = s.total_out_bytes) ∧
    (¬(fsExists s.fs out_pdf = true ∧ cfg.overwrite = false) →
      ¬((cfg.oracle pdf).rc = 0 ∧ fsExists fs2 tmp_out = true ∧ 0 < fsSize fs2 tmp_out) →
      (process_one cfg i pdf s).total_in_bytes = s.total_in_bytes ∧
      (process_one cfg i pdf s).total_out_bytes = s.total_out_bytes) ∧
    (¬(fsExists s.fs out_pdf = true ∧ cfg.overwrite = false) →
      ((cfg.oracle pdf).rc = 0 ∧ fsExists fs2 tmp_out = true ∧ 0 < fsSize fs2 tmp_out) →
      (fsSize fs2 pdf ≤ fsSize fs2 tmp_out ∧ 0 < fsSize fs2 pdf) →
      (process_one cfg i pdf s).total_in_bytes = s.total_in_bytes + fsSize fs2 pdf ∧
      (process_one cfg i pdf s).total_out_bytes = s.total_out_bytes + fsSize fs2 pdf) ∧
    (¬(fsExists s.fs out_pdf = true ∧ cfg.overwrite = false) →
      ((cfg.oracle pdf).rc = 0 ∧ fsExists fs2 tmp_out = true ∧ 0 < fsSize fs2 tmp_out) →
      ¬(fsSize fs2 pdf ≤ fsSize fs2 tmp_out ∧ 0 < fsSize fs2 pdf) →
      (process_one cfg i pdf s).total_in_bytes = s.total_in_bytes + fsSize fs2 pdf ∧
      (process_one cfg i pdf s).total_out_bytes = s.total_out_bytes + fsSize fs2 tmp_out) ∧
    (∀ (pdfs : List Path) (fs0 : FS),
      (worker cfg pdfs fs0).events =
        (worker_loop cfg 1 pdfs (init_state fs0)).events ++
          [Event.done (worker_loop cfg 1 pdfs (init_state fs0)).ok
            (worker_loop cfg 1 pdfs (init_state fs0)).skipped
            (worker_loop cfg 1 pdfs (init_state fs0)).failed pdfs.length
            (total_saved (worker_loop cfg 1 pdfs (init_state fs0)).total_in_bytes
              (worker_loop cfg 1 pdfs (init_state fs0)).total_out_bytes)
            (worker_loop cfg 1 pdfs (init_state fs0)).total_in_bytes]) ∧
    (∀ tin tout : Nat, total_saved tin tout = max ((tin : Int) - (tout : Int)) 0) ∧
    (∀ (sv : Int) (tin : Nat), 0 < tin → saved_ratio sv tin = some ((sv : ℚ) / (tin : ℚ))) ∧
    (∀ sv : Int, saved_ratio sv 0 = none) := by
  subst hout
  subst htmp
  subst hfs2
  have hst : safe_output_path cfg.out_dir cfg.in_root pdf ≠
      with_suffix (safe_output_path cfg.out_dir cfg.in_root pdf) ".tmp.pdf" :=
    (with_suffix_tmp_ne _).symm
  refine ⟨?_, ?_, ?_, ?_, ?_, ?_, ?_, ?_⟩
  · rintro ⟨hex, hov⟩
    have hex' : (s.fs (safe_output_path cfg.out_dir cfg.in_root pdf)).isSome = true := by
      simpa [fsExists] using hex
    constructor <;> simp [process_one, fsExists, hex', hov]
  · intro hns hng
    constructor <;> simp [process_one, hns, hng]
  · intro hns hgate hcopy
    obtain ⟨h1, h2, h3⟩ := hgate
    constructor <;> simp [process_one, hns, h1, h2, h3, hcopy.1, hcopy.2]
  · intro hns hgate hnc
    obtain ⟨h1, h2, h3⟩ := hgate
    constructor
    · simp [process_one, hns, h1, h2, h3, hnc]
    · simp [process_one, hns, h1, h2, h3, hnc, fsSize_promote _ _ _ _ hst]
  · intro pdfs fs0
    simp [worker]
  · intro tin tout
    rfl
  · intro sv tin htin
    simp [saved_ratio, htin]
  · intro sv
    simp [saved_ratio]
theorem mem_filesOf {es : List Entry} {fn : String} :
    fn ∈ filesOf es ↔ Entry.file fn ∈ es := by
  induction es with
  | nil => simp [filesOf]
  | cons e rest ih =>
    cases e with
    | file n => simp [filesOf, ih]
    | dir n sub => simp [filesOf, ih]

theorem pathName_append (r : Path) (fn : String) : pathName (r ++ [fn]) = fn := by
  simp [pathName, List.getLastD_concat]

theorem mem_walkSubs_flat (pred : String → Bool) (q : Path) :
    ∀ (p : Path) (es : List Entry),
      (q ∈ (walkSubs p es).flatMap (fun rfs =>
          (rfs.2.filter pred).map (fun fn => rfs.1 ++ [fn])) ↔
        ∃ (n : String) (sub : List Entry) (rest : Path),
          Entry.dir n sub ∈ es ∧ FileUnder sub rest ∧ q = p ++ n :: rest ∧
          pred (pathName q) = true) := by
  intro p es
  induction p, es using walkSubs.induct with
  | case1 p =>
    simp [walkSubs]
  | case2 p n es ih =>
    simp only [walkSubs]
    rw [ih]
    constructor
    · rintro ⟨m, sub, rest, hmem, hfu, hq, hpred⟩
      exact ⟨m, sub, rest, List.mem_cons_of_mem _ hmem, hfu, hq, hpred⟩
    · rintro ⟨m, sub, rest, hmem, hfu, hq, hpred⟩
      rcases List.mem_cons.mp hmem with heq | hmem'
      · exact Entry.noConfusion heq
      · exact ⟨m, sub, rest, hmem', hfu, hq, hpred⟩
  | case3 p n sub es ihsub ihes =>
    simp only [walkSubs, List.cons_append, List.flatMap_cons, List.flatMap_append,
      List.mem_append]
    rw [ihsub, ihes]
    constructor
    · rintro (hA | hB | hC)
      · rw [List.mem_map] at hA
        obtain ⟨fn, hfn, hq⟩ := hA
        rw [List.mem_filter] at hfn
        refine ⟨n, sub, [fn], List.mem_cons_self _ _,
          FileUnder.here (mem_filesOf.mp hfn.1), ?_, ?_⟩
        · rw [← hq]; simp
        · rw [← hq, pathName_append]
          exact hfn.2
      · obtain ⟨m, sub1, rest, hmem, hfu, hq, hpred⟩ := hB
        refine ⟨n, sub, m :: rest, List.mem_cons_self _ _,
          FileUnder.deeper hmem hfu, ?_, hpred⟩
        rw [hq]; simp
      · obtain ⟨m, sub1, rest, hmem, hfu, hq, hpred⟩ := hC
        exact ⟨m, sub1, rest, List.mem_cons_of_mem _ hmem, hfu, hq, hpred⟩
    · rintro ⟨m, sub1, rest, hmem, hfu, hq, hpred⟩
      rcases List.mem_cons.mp hmem with heq | hmem'
      · injection heq with hm hsub
        subst hm
        subst hsub
        cases hfu with
        | here hfile =>
          left
          rename_i fn
          rw [List.mem_map]
          refine ⟨fn, ?_, ?_⟩
          · rw [List.mem_filter]
            refine ⟨mem_filesOf.mpr hfile, ?_⟩
            have hpn : pathName q = fn := by
              rw [hq, show p ++ m :: [fn] = (p ++ [m]) ++ [fn] from by simp, pathName_append]
            rw [← hpn]
            exact hpred
          · rw [hq]; simp
        | deeper hdir hfu2 =>
          right; left
          rename_i m2 sub2 rest2
          exact ⟨m2, sub2, rest2, hdir, hfu2, by rw [hq]; simp, hpred⟩
      · right; right
        exact ⟨m, sub1, rest, hmem', hfu, hq, hpred⟩

theorem mem_list_pdfs_recursive (p : Path) (es : List Entry) (q : Path) :
    q ∈ list_pdfs p es true ↔
      (∃ rel, FileUnder es rel ∧ q = p ++ rel) ∧
      endswith (lowerStr (pathName q)) ".pdf" = true := by
  rw [list_pdfs]
  rw [if_pos rfl]
  simp only [walkDir, List.flatMap_cons, List.mem_append]
  rw [mem_walkSubs_flat]
  constructor
  · rintro (hA | hB)
    · rw [List.mem_map] at hA
      obtain ⟨fn, hfn, hq⟩ := hA
      rw [List.mem_filter] at hfn
      refine ⟨⟨[fn], FileUnder.here (mem_filesOf.mp hfn.1), hq.symm⟩, ?_⟩
      rw [← hq, pathName_append]
      exact hfn.2
    · obtain ⟨m, sub, rest, hmem, hfu, hq, hpred⟩ := hB
      exact ⟨⟨m :: rest, FileUnder.deeper hmem hfu, hq⟩, hpred⟩
  · rintro ⟨⟨rel, hfu, hq⟩, hpred⟩
    cases hfu with
    | here hfile =>
      left
      rename_i fn
      rw [List.mem_map]
      refine ⟨fn, ?_, hq.symm⟩
      rw [List.mem_filter]
      refine ⟨mem_filesOf.mpr hfile, ?_⟩
      have hpn : pathName q = fn := by rw [hq, pathName_append]
      rw [← hpn]
      exact hpred
    | deeper hdir hfu2 =>
      right
      rename_i m sub rest
      exact ⟨m, sub, rest, hdir, hfu2, hq, hpred⟩

theorem mem_list_pdfs_flat (p : Path) (es : List Entry) (q : Path) :
    q ∈ list_pdfs p es false ↔
      ∃ fn, Entry.file fn ∈ es ∧ lowerStr (suffixStr fn) = ".pdf" ∧ q = p ++ [fn] := by
  rw [list_pdfs]
  rw [if_neg (by simp)]
  rw [List.mem_filterMap]
  constructor
  · rintro ⟨e, he, hfe⟩
    cases e with
    | file fn =>
      change (if lowerStr (suffixStr fn) = ".pdf" then some (p ++ [fn]) else none) = some q at hfe
      by_cases hc : lowerStr (suffixStr fn) = ".pdf"
      · refine ⟨fn, he, hc, ?_⟩
        rw [if_pos hc] at hfe
        exact (Option.some.injEq _ _ ▸ hfe).symm
      · rw [if_neg hc] at hfe
        exact Option.noConfusion hfe
    | dir n sub => exact Option.noConfusion hfe
  · rintro ⟨fn, hin, hc, rfl⟩
    exact ⟨Entry.file fn, hin, by simp [hc]⟩

theorem filter_all_files (p : Path) (es : List Entry) :
    list_pdfs p es true =
      (all_files p es).filter (fun r => endswith (lowerStr (pathName r)) ".pdf") := by
  rw [list_pdfs, all_files]
  rw [if_pos rfl]
  generalize walkDir p es = ws
  induction ws with
  | nil => simp
  | cons rf ws ih =>
    simp only [List.flatMap_cons, List.filter_append, ih]
    congr 1
    rw [List.filter_map]
    congr 1
    apply List.filter_congr
    intro fn _
    simp [Function.comp, pathName_append]
theorem process_one_invocations (cfg : RunCfg) (i : Nat) (pdf : Path) (s : WorkerState) :
    (process_one cfg i pdf s).invocations = s.invocations ∨
    (process_one cfg i pdf s).invocations =
      s.invocations ++ [compress_cmd cfg.gs pdf
        (with_suffix (safe_output_path cfg.out_dir cfg.in_root pdf) ".tmp.pdf") cfg.preset] := by
  simp only [process_one]
  split_ifs <;> simp

theorem invocations_use_preset (cfg : RunCfg) :
    ∀ (pdfs : List Path) (i : Nat) (s : WorkerState) (cmd : List String),
      cmd ∈ (worker_loop cfg i pdfs s).invocations →
      cmd ∈ s.invocations ∨ ("-dPDFSETTINGS=" ++ cfg.preset) ∈ cmd := by
  intro pdfs
  induction pdfs with
  | nil =>
    intro i s cmd h
    exact Or.inl h
  | cons pdf rest ih =>
    intro i s cmd h
    by_cases hstop : cfg.stop i = true
    · simp only [worker_loop, hstop, if_pos] at h
      exact Or.inl h
    · simp only [worker_loop, hstop, Bool.false_eq_true, if_false] at h
      rcases ih (i + 1) (process_one cfg i pdf s) cmd h with h2 | h2
      · rcases process_one_invocations cfg i pdf s with h3 | h3
        · rw [h3] at h2
          exact Or.inl h2
        · rw [h3, List.mem_append] at h2
          rcases h2 with h4 | h4
          · exact Or.inl h4
          · right
            have hc : cmd = compress_cmd cfg.gs pdf
                (with_suffix (safe_output_path cfg.out_dir cfg.in_root pdf) ".tmp.pdf")
                cfg.preset := by simpa using h4
            rw [hc]
            simp [compress_cmd]
      · exact Or.inr h2

/-- C10: Preset default. A label outside the five known display labels maps
to the "/ebook" token, and every invocation of a run configured with that
token carries "-dPDFSETTINGS=/ebook" in its argument vector. -/
theorem preset_default
    (label : String) (cfg : RunCfg) (pdfs : List Path) (fs0 : FS)
    (hlab : ∀ pr ∈ PDF_PRESETS, pr.1 ≠ label)
    (hcfg : cfg.preset = preset_get label) :
    preset_get label = "/ebook" ∧
    ∀ cmd ∈ (worker cfg pdfs fs0).invocations, "-dPDFSETTINGS=/ebook" ∈ cmd := by
  have hpg : preset_get label = "/ebook" := by
    rw [preset_get]
    have hfind : PDF_PRESETS.find? (fun pr => pr.1 == label) = none := by
      rw [List.find?_eq_none]
      intro pr hpr
      simp only [beq_iff_eq]
      exact hlab pr hpr
    rw [hfind]
  refine ⟨hpg, ?_⟩
  intro cmd hcmd
  have h1 : (worker cfg pdfs fs0).invocations =
      (worker_loop cfg 1 pdfs (init_state fs0)).invocations := by
    simp [worker]
  rw [h1] at hcmd
  rcases invocations_use_preset cfg pdfs 1 (init_state fs0) cmd hcmd with h | h
  · simp [init_state] at h
  · rw [hcfg, hpg] at h
    have heq : "-dPDFSETTINGS=" ++ "/ebook" = "-dPDFSETTINGS=/ebook" := rfl
    rw [heq] at h
    exact h

/-- C9: File enumeration. In recursive mode `list_pdfs` yields exactly the
files anywhere beneath the root whose lowercased name ends in ".pdf", in
the walk's directory-by-directory order (it equals the ordered list of all
walked files filtered by that test); in flat mode it yields exactly the
direct child files whose pathlib suffix lowercases to ".pdf". -/
theorem enumeration_contract (p : Path) (es : List Entry) (q : Path) :
    (q ∈ list_pdfs p es true ↔
      (∃ rel, FileUnder es rel ∧ q = p ++ rel) ∧
      endswith (lowerStr (pathName q)) ".pdf" = true) ∧
    list_pdfs p es true =
      (all_files p es).filter (fun r => endswith (lowerStr (pathName r)) ".pdf") ∧
    (q ∈ list_pdfs p es false ↔
      ∃ fn, Entry.file fn ∈ es ∧ lowerStr (suffixStr fn) = ".pdf" ∧ q = p ++ [fn]) :=
  ⟨mem_list_pdfs_recursive p es q, filter_all_files p es, mem_list_pdfs_flat p es q⟩
theorem copy_fallback_witness :
    (process_one wCfgCopy 1 ["in", "a.pdf"] (init_state wFS)).fs ["out", "a.pdf"] =
      some [9, 9, 9, 9, 9] ∧
    (process_one wCfgCopy 1 ["in", "a.pdf"] (init_state wFS)).fs ["out", "a.tmp.pdf"] = none ∧
    (process_one wCfgCopy 1 ["in", "a.pdf"] (init_state wFS)).fs ["in", "a.pdf"] =
      (init_state wFS).fs ["in", "a.pdf"] ∧
    (process_one wCfgCopy 1 ["in", "a.pdf"] (init_state wFS)).ok = (init_state wFS).ok + 1 ∧
    (process_one wCfgCopy 1 ["in", "a.pdf"] (init_state wFS)).skipped =
      (init_state wFS).skipped ∧
    (process_one wCfgCopy 1 ["in", "a.pdf"] (init_state wFS)).failed =
      (init_state wFS).failed :=
  copy_fallback wCfgCopy 1 ["in", "a.pdf"] ["out", "a.pdf"] ["out", "a.tmp.pdf"]
    (init_state wFS) [7, 7, 7, 7, 7, 7] [9, 9, 9, 9, 9] (by decide) (by decide) (by decide)
    (by decide) (by decide) (by decide) (by decide) (by decide) (by decide) (by decide)
    (by decide)

theorem smaller_promotion_witness :
    (process_one wCfgOk 1 ["in", "a.pdf"] (init_state wFS)).fs ["out", "a.pdf"] =
      some [7, 7] ∧
    (process_one wCfgOk 1 ["in", "a.pdf"] (init_state wFS)).fs ["out", "a.tmp.pdf"] = none ∧
    (process_one wCfgOk 1 ["in", "a.pdf"] (init_state wFS)).fs ["in", "a.pdf"] =
      (init_state wFS).fs ["in", "a.pdf"] ∧
    (process_one wCfgOk 1 ["in", "a.pdf"] (init_state wFS)).ok = (init_state wFS).ok + 1 ∧
    (process_one wCfgOk 1 ["in", "a.pdf"] (init_state wFS)).skipped =
      (init_state wFS).skipped ∧
    (process_one wCfgOk 1 ["in", "a.pdf"] (init_state wFS)).failed =
      (init_state wFS).failed :=
  smaller_promotion wCfgOk 1 ["in", "a.pdf"] ["out", "a.pdf"] ["out", "a.tmp.pdf"]
    (init_state wFS) [7, 7] [9, 9, 9, 9, 9] (by decide) (by decide) (by decide) (by decide)
    (by decide) (by decide) (by decide) (by decide) (by decide) (by decide)

theorem skip_rule_witness :
    (process_one wCfgNoOv 1 ["in", "a.pdf"] (init_state wFSOut)).skipped =
      (init_state wFSOut).skipped + 1 ∧
    (process_one wCfgNoOv 1 ["in", "a.pdf"] (init_state wFSOut)).ok =
      (init_state wFSOut).ok ∧
    (process_one wCfgNoOv 1 ["in", "a.pdf"] (init_state wFSOut)).failed =
      (init_state wFSOut).failed ∧
    (process_one wCfgNoOv 1 ["in", "a.pdf"] (init_state wFSOut)).invocations =
      (init_state wFSOut).invocations ∧
    (process_one wCfgNoOv 1 ["in", "a.pdf"] (init_state wFSOut)).fs = (init_state wFSOut).fs ∧
    (process_one wCfgNoOv 1 ["in", "a.pdf"] (init_state wFSOut)).events =
      (init_state wFSOut).events ++ [Event.progress 1, Event.log_skip "a.pdf"] :=
  skip_rule wCfgNoOv 1 ["in", "a.pdf"] (init_state wFSOut) (by decide) (by decide)

theorem out_root_redirect_witness :
    validate_out_dir id ["root"] false ["root"] = ["root", "_compressed"] ∧
    ∀ (in_root pdf : Path),
      in_root.length < pdf.length →
      parentDir (safe_output_path (validate_out_dir id ["root"] false ["root"]) in_root pdf) ≠
        ["root"] :=
  out_root_redirect id ["root"] false ["root"] rfl

theorem byte_accounting_witness :
    (process_one wCfgFail 1 ["in", "a.pdf"] (init_state wFS)).total_in_bytes =
      (init_state wFS).total_in_bytes ∧
    (process_one wCfgFail 1 ["in", "a.pdf"] (init_state wFS)).total_out_bytes =
      (init_state wFS).total_out_bytes :=
  (byte_accounting wCfgFail 1 ["in", "a.pdf"] _ _ (init_state wFS) _ rfl rfl rfl).2.1
    (by decide) (by decide)

theorem failure_handling_witness :
    (process_one wCfgFail 1 ["in", "a.pdf"] (init_state wFS)).failed =
      (init_state wFS).failed + 1 ∧
    (process_one wCfgFail 1 ["in", "a.pdf"] (init_state wFS)).ok = (init_state wFS).ok ∧
    (process_one wCfgFail 1 ["in", "a.pdf"] (init_state wFS)).skipped =
      (init_state wFS).skipped ∧
    (process_one wCfgFail 1 ["in", "a.pdf"] (init_state wFS)).fs ["out", "a.tmp.pdf"] = none ∧
    (process_one wCfgFail 1 ["in", "a.pdf"] (init_state wFS)).total_in_bytes =
      (init_state wFS).total_in_bytes ∧
    (process_one wCfgFail 1 ["in", "a.pdf"] (init_state wFS)).total_out_bytes =
      (init_state wFS).total_out_bytes ∧
    (process_one wCfgFail 1 ["in", "a.pdf"] (init_state wFS)).events =
      (init_state wFS).events ++
        ([Event.log_fail_gs (pathName ["in", "a.pdf"]) (wCfgFail.oracle ["in", "a.pdf"]).rc] ++
         (if (wCfgFail.oracle ["in", "a.pdf"]).err_text ≠ "" then
            [Event.log_stderr (truncateStr 500 (wCfgFail.oracle ["in", "a.pdf"]).err_text.trim)]
          else []) ++
         [Event.progress 1]) ∧
    (wCfgFail.stop 1 = false →
      worker_loop wCfgFail 1 [["in", "a.pdf"]] (init_state wFS) =
        worker_loop wCfgFail (1 + 1) []
          (process_one wCfgFail 1 ["in", "a.pdf"] (init_state wFS))) :=
  failure_handling wCfgFail 1 ["in", "a.pdf"] ["out", "a.pdf"] ["out", "a.tmp.pdf"]
    (init_state wFS) [] (by decide) (by decide) (by decide) (by decide)

theorem stop_semantics_witness :
    worker_loop wCfgStop 1 [["in", "a.pdf"], ["in", "b.pdf"]] (init_state wFS) =
      worker_loop { wCfgStop with stop := fun _ => false } 1
        ([["in", "a.pdf"], ["in", "b.pdf"]].take 1) (init_state wFS) ∧
    (worker wCfgStop [["in", "a.pdf"], ["in", "b.pdf"]] wFS).ok +
      (worker wCfgStop [["in", "a.pdf"], ["in", "b.pdf"]] wFS).skipped +
      (worker wCfgStop [["in", "a.pdf"], ["in", "b.pdf"]] wFS).failed = 1 ∧
    (worker wCfgStop [["in", "a.pdf"], ["in", "b.pdf"]] wFS).total_in_bytes =
      (worker { wCfgStop with stop := fun _ => false }
        ([["in", "a.pdf"], ["in", "b.pdf"]].take 1) wFS).total_in_bytes ∧
    (worker wCfgStop [["in", "a.pdf"], ["in", "b.pdf"]] wFS).total_out_bytes =
      (worker { wCfgStop with stop := fun _ => false }
        ([["in", "a.pdf"], ["in", "b.pdf"]].take 1) wFS).total_out_bytes :=
  stop_semantics wCfgStop 1 [["in", "a.pdf"], ["in", "b.pdf"]] wFS (fun _ => rfl) (by decide)

theorem preset_default_witness :
    preset_get "Maximum (/max)" = "/ebook" ∧
    ∀ cmd ∈ (worker wCfgUnknown [["in", "a.pdf"]] wFS).invocations,
      "-dPDFSETTINGS=/ebook" ∈ cmd :=
  preset_default "Maximum (/max)" wCfgUnknown [["in", "a.pdf"]] wFS (by decide) rfl

/-- C6, counterexample to the claim as stated: a run with a single attempted
job (not skipped, exactly one invocation) of input size 5 whose invocation
fails ends with total_in_bytes = 0, not 5 — failed jobs do not accumulate
input bytes, though the claim says every attempted (non-skipped) job does. -/
theorem byte_accounting_counterexample :
    (worker wCfgFail [["in", "a.pdf"]] wFS).skipped = 0 ∧
    (worker wCfgFail [["in", "a.pdf"]] wFS).failed = 1 ∧
    (worker wCfgFail [["in", "a.pdf"]] wFS).invocations.length = 1 ∧
    fsSize wFS ["in", "a.pdf"] = 5 ∧
    ¬(worker wCfgFail [["in", "a.pdf"]] wFS).total_in_bytes = 5 := by
  decide

end CompressPdf
